import Mathlib

/-!
Shallow embedding of the YOLO-SSR validation engine
(`ultralytics/yolo/engine/validator.py`, `BaseValidator`) and of the multi-task
predictor post-processors (`ultralytics/yolo/v8/DecSeg/predict.py`,
`MultiPredictor`), together with proofs of the behavioural claims about them.

Numeric conventions: Python/PyTorch float values are embedded as ideal numbers —
`ℚ` for configuration scalars, timers and statistics values, `ℝ` for tensor
entries (the logistic sigmoid needs `Real.exp`).  External collaborators that the
engine only calls (non-maximum suppression, box rescaling, the loss criterion,
the metric accumulators) are function parameters of the embedded code, so every
theorem quantifies over them.
-/

namespace YoloSSR

/-- Python's substring test `pat in s`, over the character list of `s`:
true iff `pat` is a contiguous substring of `s`. -/
def strContains (s pat : String) : Bool :=
  s.data.tails.any (fun t => pat.data.isPrefixOf t)

/-! ### Multi-task postprocess dispatch (validator.py lines 254-263)

```
preds_list_post = []
for i, preds in enumerate(preds_list):
    if 'det' in self.data['labels_list'][i]:
        preds = self.postprocess_det(preds)
        preds_list_post.append(preds)
    elif 'seg' in self.data['labels_list'][i]:
        preds = self.postprocess_seg(preds,i)
        preds_list_post.append(preds)
```

The per-task hooks `postprocess_det` / `postprocess_seg` are abstract parameters
`post_det` / `post_seg`.  A task whose name contains neither `'det'` nor `'seg'`
appends nothing.  The Python code indexes `labels_list[i]` while enumerating
`preds_list`; the in-range behaviour (the only non-raising one) is captured by
`List.getD`, and theorems carry the alignment hypothesis
`preds_list.length = labels_list.length`. -/

/-- Loop body of the dispatch, carrying the enumeration counter `i`. -/
def postDispatchAux {α β : Type} (labels_list : List String)
    (post_det : α → β) (post_seg : α → ℕ → β) : ℕ → List α → List β
  | _, [] => []
  | i, p :: rest =>
    if strContains (labels_list.getD i "") "det" then
      post_det p :: postDispatchAux labels_list post_det post_seg (i + 1) rest
    else if strContains (labels_list.getD i "") "seg" then
      post_seg p i :: postDispatchAux labels_list post_det post_seg (i + 1) rest
    else
      postDispatchAux labels_list post_det post_seg (i + 1) rest

/-- The list `preds_list_post` produced by the dispatch loop for one batch. -/
def preds_list_post {α β : Type} (labels_list : List String)
    (post_det : α → β) (post_seg : α → ℕ → β) (preds_list : List α) : List β :=
  postDispatchAux labels_list post_det post_seg 0 preds_list

/-- Kind test used by both the dispatch loop and the metric-update loop:
the task name denotes a known kind (detection or segmentation). -/
def knownKind (name : String) : Bool :=
  strContains name "det" || strContains name "seg"

/-! ### Nested-mode finalization (validator.py lines 299-312 and 325-328) -/

/-- Modelled from the spec: `AverageMeter` (the RunningAggregate of spec §2) is
defined outside the excerpt; the finalization code only reads its running mean
`avg`. -/
structure AverageMeter where
  avg : ℚ

/-- One task's `seg_result` entry, the dict
`{'pixacc': AverageMeter(), 'subacc': AverageMeter(), 'IoU': AverageMeter(),
'mIoU': AverageMeter()}` built at validator.py lines 118-120 / 158. -/
structure SegTaskResult where
  pixacc : AverageMeter
  subacc : AverageMeter
  IoU : AverageMeter
  mIoU : AverageMeter

/-- `[(key, value.avg) for key, value in self.seg_result[label_name].items()]`
(validator.py line 308): dict iteration follows the insertion order of the
literal at lines 118-120. -/
def segResultKeyValues (r : SegTaskResult) : List (String × ℚ) :=
  [("pixacc", r.pixacc.avg), ("subacc", r.subacc.avg),
   ("IoU", r.IoU.avg), ("mIoU", r.mIoU.avg)]

/-- Round a rational to the nearest integer, ties to the even neighbour: the
ideal-number semantics of Python's built-in `round`. -/
def roundHalfEven (q : ℚ) : ℤ :=
  if q - (Int.floor q : ℚ) < 1/2 then Int.floor q
  else if (1:ℚ)/2 < q - (Int.floor q : ℚ) then Int.floor q + 1
  else if Int.floor q % 2 = 0 then Int.floor q else Int.floor q + 1

/-- Python's `round(v, 5)` on ideal numbers: round to 5 decimal digits. -/
def round5 (q : ℚ) : ℚ :=
  ((roundHalfEven (q * 100000) : ℤ) : ℚ) / 100000

/-- Per-task body of the nested multi-task return loop (validator.py 303-311):

```
try:
    results = {**stats[i], **trainer.label_loss_items_val(...)}
    results_list.append({k: round(float(v), 5) for k, v in results.items()})
except:
    key_values = [(key, value.avg) for key, value in self.seg_result[label_name].items()]
    result = key_values[2][1]+key_values[3][1]
    dic = {'fitness':result}
    results_list.append(dic)
```

`merged` is `some` of the merged dict `{**stats[i], **label_loss_items_val(...)}`
when the merge succeeds and `none` when it raises (the bare `except:`); the
task is assumed to own a `seg_result` entry `r`, which is what the fallback
reads. -/
def finalizeTaskNested (merged : Option (List (String × ℚ)))
    (r : SegTaskResult) : List (String × ℚ) :=
  match merged with
  | some results => results.map (fun kv => (kv.1, round5 kv.2))
  | none =>
    [("fitness",
      ((segResultKeyValues r).getD 2 ("", 0)).2 + ((segResultKeyValues r).getD 3 ("", 0)).2)]

/-- The whole `results_list` of the nested multi-task return (validator.py
302-312), one entry per configured task. -/
def finalizeMultiNested
    (tasks : List (Option (List (String × ℚ)) × SegTaskResult)) :
    List (List (String × ℚ)) :=
  tasks.map (fun t => finalizeTaskNested t.1 t.2)

/-- Single-task nested return (validator.py 327-328):
`{k: round(float(v), 5) for k, v in results.items()}`. -/
def finalizeSingleNested (results : List (String × ℚ)) : List (String × ℚ) :=
  results.map (fun kv => (kv.1, round5 kv.2))

/-- Claim C3's property of a returned multi-task statistics sequence: every
value of every per-task mapping is a 5-decimal value (a fixed point of
rounding to 5 decimal places). -/
def allRounded5 (statsList : List (List (String × ℚ))) : Prop :=
  ∀ task ∈ statsList, ∀ kv ∈ task, round5 kv.2 = kv.2

/-! ### Required-hook defaults (validator.py lines 350-364) -/

/-- Error raised by an unimplemented required hook. -/
inductive HookErr where
  | notImplemented (msg : String)

/-- `BaseValidator.get_dataloader` (validator.py 350-352): always raises
`NotImplementedError`.  `δ` is the dataloader type a subclass would return. -/
def get_dataloader (δ : Type) (dataset_path : String) (batch_size : ℕ) :
    Except HookErr δ :=
  Except.error (HookErr.notImplemented
    "get_dataloader function not implemented for this validator")

/-- `BaseValidator.build_dataset` (validator.py 354-356): always raises
`NotImplementedError`. -/
def build_dataset (δ : Type) (img_path : String) : Except HookErr δ :=
  Except.error (HookErr.notImplemented
    "build_dataset function not implemented in validator")

/-- `BaseValidator.postprocess` (validator.py 362-364): `return preds`.  The
`Except` codomain makes it comparable with the raising hooks: this default
never raises, it returns the raw predictions unchanged. -/
def postprocess {π : Type} (preds : π) : Except HookErr π :=
  Except.ok preds

/-! ### Speed normalization (validator.py lines 285-294) -/

/-- Keys of `self.speed`, in the insertion order fixed at validator.py line 77. -/
def speedKeys : List String :=
  ["preprocess", "inference", "loss", "postprocess"]

/-- The four profile totals `dt = Profile(), Profile(), Profile(), Profile()`
(validator.py 169), each holding its accumulated seconds `x.t`. -/
def profileTotals (dt : ℚ × ℚ × ℚ × ℚ) : List ℚ :=
  [dt.1, dt.2.1, dt.2.2.1, dt.2.2.2]

/-- Multi-task speed normalization (validator.py 288):
`dict(zip(self.speed.keys(), (x.t / len(self.dataloader.dataset) * 1E3 / len(self.data['labels_list']) for x in dt)))`. -/
def speedMulti (dt : ℚ × ℚ × ℚ × ℚ) (nImages nTasks : ℕ) : List (String × ℚ) :=
  speedKeys.zip ((profileTotals dt).map
    (fun x => x / (nImages : ℚ) * 1000 / (nTasks : ℚ)))

/-- Single-task speed normalization (validator.py 294):
`dict(zip(self.speed.keys(), (x.t / len(self.dataloader.dataset) * 1E3 for x in dt)))`. -/
def speedSingle (dt : ℚ × ℚ × ℚ × ℚ) (nImages : ℕ) : List (String × ℚ) :=
  speedKeys.zip ((profileTotals dt).map (fun x => x / (nImages : ℚ) * 1000))

/-! ### Standalone JSON export guard (validator.py lines 316-319 / 332-335) -/

/-- One entry of `self.jdict`, appended per retained detection by
`pred_to_json` (validator.py 417-431). -/
structure JsonRecord where
  image_id : ℤ ⊕ String
  category_id : ℕ
  bbox : List ℚ
  score : ℚ

/-- The guard `if self.args.save_json and self.jdict:` around the write of
`predictions.json` in standalone mode: Python truthiness of the list `jdict`
is non-emptiness. -/
def writesPredictionsJson (save_json : Bool) (jdict : List JsonRecord) : Bool :=
  save_json && !jdict.isEmpty

/-! ### Per-task segmentation metric construction (validator.py 116-120 / 157-158)

`self.seg_metrics = {name: SegmentationMetric(self.data['nc_list'][count] + 1)
for count, name in enumerate(self.data['labels_list']) if 'seg' in name}`.
Each `SegmentationMetric(n)` is represented by its constructor argument `n`,
the class count of the running structure. -/

/-- Comprehension body, carrying the enumeration counter `count`. -/
def segMetricsAux (nc_list : List ℕ) : ℕ → List String → List (String × ℕ)
  | _, [] => []
  | count, name :: rest =>
    if strContains name "seg" then
      (name, nc_list.getD count 0 + 1) :: segMetricsAux nc_list (count + 1) rest
    else
      segMetricsAux nc_list (count + 1) rest

/-- The `seg_metrics` mapping: task name to the class count its
`SegmentationMetric` is constructed with. -/
def seg_metrics (labels_list : List String) (nc_list : List ℕ) :
    List (String × ℕ) :=
  segMetricsAux nc_list 0 labels_list

/-! ### Detection post-processing (predict.py lines 12-29)

```
def postprocess_det(self, preds, img, orig_imgs):
    preds = ops.non_max_suppression(preds, self.args.conf, self.args.iou,
                                    agnostic=self.args.agnostic_nms,
                                    max_det=self.args.max_det,
                                    classes=self.args.classes)
    results = []
    for i, pred in enumerate(preds):
        orig_img = orig_imgs[i] if isinstance(orig_imgs, list) else orig_imgs
        if not isinstance(orig_imgs, torch.Tensor):
            pred[:, :4] = ops.scale_boxes(img.shape[2:], pred[:, :4], orig_img.shape)
        path = self.batch[0]
        img_path = path[i] if isinstance(path, list) else path
        results.append(Results(orig_img=orig_img, path=img_path, names=self.model.names, boxes=pred))
    return results
```

`ops.non_max_suppression` and `ops.scale_boxes` are external utilities
(spec §1 treats the suppression/box-transform kernels as supplied, already
correct); they are abstract function parameters here.  A prediction row is a
pair of its box part (the first four columns, the only part `scale_boxes`
rewrites) and the rest of the row (confidence, class). -/

/-- Configuration slots read by `postprocess_det`. -/
structure DetArgs where
  conf : ℚ
  iou : ℚ
  agnostic_nms : Bool
  max_det : ℕ
  classes : Option (List ℕ)

/-- `orig_imgs` arrives either as one stacked tensor or as a list of per-image
arrays; `isinstance(orig_imgs, torch.Tensor)` / `isinstance(orig_imgs, list)`
discriminate the two. -/
inductive OrigInput (Img : Type) where
  | tensor (t : Img)
  | images (l : List Img)

/-- `self.batch[0]`: one path or a list of per-image paths. -/
inductive BatchPaths where
  | single (p : String)
  | many (ps : List String)

/-- `path[i] if isinstance(path, list) else path`. -/
def imgPathAt (paths : BatchPaths) (i : ℕ) : String :=
  match paths with
  | .many ps => ps.getD i ""
  | .single p => p

/-- One `Results(orig_img=..., path=..., names=..., boxes=...)` record. -/
structure DetResult (Img Box Rest Names : Type) where
  orig_img : Img
  path : String
  names : Names
  boxes : List (Box × Rest)

/-- `MultiPredictor.postprocess_det`.  `non_max_suppression` receives the raw
predictions and, in the source's argument order, `conf`, `iou`, `agnostic`,
`max_det`, `classes`, and yields one row list per image; `scale_boxes`
receives the network input shape `img.shape[2:]`, a box, and the original
image's shape. -/
def postprocess_det {Raw Img Box Rest Names Shape : Type} [Inhabited Img]
    (non_max_suppression :
      Raw → ℚ → ℚ → Bool → ℕ → Option (List ℕ) → List (List (Box × Rest)))
    (scale_boxes : Shape → Box → Shape → Box)
    (shape_of : Img → Shape)
    (args : DetArgs) (names : Names)
    (preds : Raw) (img_hw : Shape) (orig_imgs : OrigInput Img)
    (paths : BatchPaths) : List (DetResult Img Box Rest Names) :=
  let nmsed := non_max_suppression preds args.conf args.iou args.agnostic_nms
    args.max_det args.classes
  nmsed.enum.map (fun ip =>
    let orig_img : Img := match orig_imgs with
      | .images l => l.getD ip.1 default
      | .tensor t => t
    let pred : List (Box × Rest) := match orig_imgs with
      | .tensor _ => ip.2
      | .images _ =>
        ip.2.map (fun row => (scale_boxes img_hw row.1 (shape_of orig_img), row.2))
    ⟨orig_img, imgPathAt paths ip.1, names, pred⟩)

/-! ### Segmentation post-processing (predict.py lines 31-42)

```
def postprocess_seg(self, preds):
    img_array = self.batch[1][0]
    orig_h, orig_w = img_array.shape[:2]
    preds = torch.nn.functional.interpolate(preds, size=(orig_h, orig_w), mode='bilinear', align_corners=False)
    preds = self.sigmoid(preds)
    _, preds = torch.max(preds, 1)
    return preds
```

A raw output is a rank-4 tensor `(n, c, y, x) ↦ ℝ` with spatial size
`inH × inW`; the embedding resizes it to `origH × origW` (the first original
image's height and width), applies the sigmoid elementwise and takes
`torch.max` along dimension 1 (the class dimension), keeping the index part. -/

/-- Source coordinate of output index `outIdx` for PyTorch bilinear
interpolation with `align_corners=False`:
`max(0, (inSize/outSize) * (outIdx + 0.5) - 0.5)`. -/
def srcIndex (inSize outSize : ℕ) (outIdx : ℕ) : ℚ :=
  let s : ℚ := (inSize : ℚ) / (outSize : ℚ) * ((outIdx : ℚ) + 1/2) - 1/2
  if s < 0 then 0 else s

/-- One output pixel of PyTorch `interpolate(mode='bilinear',
align_corners=False)` on a single plane: the four neighbours
`(y0, x0), (y0, x1), (y1, x0), (y1, x1)` around the source coordinate are
blended with the fractional weights, the second index being clamped to the
last row/column. -/
noncomputable def interpolateBilinear (inH inW : ℕ) (plane : ℕ → ℕ → ℝ)
    (outH outW : ℕ) (y x : ℕ) : ℝ :=
  let sy := srcIndex inH outH y
  let sx := srcIndex inW outW x
  let y0 := (Int.floor sy).toNat
  let x0 := (Int.floor sx).toNat
  let y1 := min (y0 + 1) (inH - 1)
  let x1 := min (x0 + 1) (inW - 1)
  let dy := sy - (y0 : ℚ)
  let dx := sx - (x0 : ℚ)
  (((1 - dy) * (1 - dx) : ℚ) : ℝ) * plane y0 x0
    + (((1 - dy) * dx : ℚ) : ℝ) * plane y0 x1
    + ((dy * (1 - dx) : ℚ) : ℝ) * plane y1 x0
    + ((dy * dx : ℚ) : ℝ) * plane y1 x1

/-- `torch.nn.functional.interpolate(preds, size=(origH, origW),
mode='bilinear', align_corners=False)` on a rank-4 tensor: every `(n, c)`
plane is resized from `inH × inW` to `outH × outW`. -/
noncomputable def interpolateStage (inH inW outH outW : ℕ)
    (t : ℕ → ℕ → ℕ → ℕ → ℝ) : ℕ → ℕ → ℕ → ℕ → ℝ :=
  fun n c y x => interpolateBilinear inH inW (fun yy xx => t n c yy xx) outH outW y x

/-- Modelled from the spec: `BasePredictor.sigmoid`
(`engine/predictor_multi.py`, outside the excerpt) is the element-wise
logistic sigmoid of spec §4.3. -/
noncomputable def sigmoid (x : ℝ) : ℝ :=
  1 / (1 + Real.exp (-x))

/-- `self.sigmoid(preds)`: elementwise application. -/
noncomputable def sigmoidStage (t : ℕ → ℕ → ℕ → ℕ → ℝ) :
    ℕ → ℕ → ℕ → ℕ → ℝ :=
  fun n c y x => sigmoid (t n c y x)

/-- Scan underlying `torch.max` along one dimension: walk the values with the
running maximum and its index, a strictly greater value replacing the running
pair, so ties keep the first maximal index (torch documents that the index of
the first maximal value is returned). -/
def maxValIdxAux {γ : Type} [LinearOrder γ] : ℕ → ℕ → γ → List γ → γ × ℕ
  | _, best, bv, [] => (bv, best)
  | i, best, bv, a :: rest =>
    if bv < a then maxValIdxAux (i + 1) i a rest
    else maxValIdxAux (i + 1) best bv rest

/-- `torch.max` over one slice: `none` on an empty slice (torch raises there). -/
def torchMaxDim {γ : Type} [LinearOrder γ] (l : List γ) : Option (γ × ℕ) :=
  match l with
  | [] => none
  | v :: rest => some (maxValIdxAux 1 0 v rest)

/-- `_, preds = torch.max(preds, 1)`: for every `(n, y, x)` the index of the
first maximum over the class slice `c = 0, …, numClasses - 1`. -/
noncomputable def argmaxStage (numClasses : ℕ) (t : ℕ → ℕ → ℕ → ℕ → ℝ) :
    ℕ → ℕ → ℕ → ℕ :=
  fun n y x =>
    ((torchMaxDim ((List.range numClasses).map (fun c => t n c y x))).getD ((0 : ℝ), 0)).2

/-- `MultiPredictor.postprocess_seg`: interpolate to the original resolution,
sigmoid, arg-max over the class dimension. -/
noncomputable def postprocess_seg (numClasses inH inW origH origW : ℕ)
    (preds : ℕ → ℕ → ℕ → ℕ → ℝ) : ℕ → ℕ → ℕ → ℕ :=
  argmaxStage numClasses (sigmoidStage (interpolateStage inH inW origH origW preds))

/-! ## Helper lemmas -/

lemma roundHalfEven_intCast (n : ℤ) : roundHalfEven (n : ℚ) = n := by
  unfold roundHalfEven
  rw [Int.floor_intCast, if_pos (by norm_num)]

lemma round5_idem (q : ℚ) : round5 (round5 q) = round5 q := by
  unfold round5
  rw [div_mul_cancel₀ _ (by norm_num : (100000 : ℚ) ≠ 0), roundHalfEven_intCast]

/-! ## Claims -/

/-- Claim C2: in multi-task nested (training) mode, for a task whose merge of
per-task statistics with the loss-history entries fails, the engine swallows
the error and returns for that task exactly the one-key mapping
`{'fitness': v}` with `v` the sum of the third and fourth entries of that
task's segmentation result structure — the IoU running mean plus the mean-IoU
running mean — and nothing else. -/
theorem C2_merge_failure_fitness_fallback (r : SegTaskResult) :
    finalizeTaskNested none r = [("fitness", r.IoU.avg + r.mIoU.avg)] := rfl

/-- Claim C3 counterexample: a multi-task nested run whose only task takes the
fallback path returns the fitness value `1/3 + 0` unrounded, so not every
returned value is rounded to 5 decimal places. -/
theorem C3_fallback_unrounded_cex :
    ¬ allRounded5 (finalizeMultiNested [(none, ⟨⟨0⟩, ⟨0⟩, ⟨1/3⟩, ⟨0⟩⟩)]) := by
  intro h
  have h' : ∀ task ∈ finalizeMultiNested
      [(none, (⟨⟨0⟩, ⟨0⟩, ⟨1/3⟩, ⟨0⟩⟩ : SegTaskResult))],
      ∀ kv ∈ task, round5 kv.2 = kv.2 := h
  have hv := h' [("fitness", (1:ℚ)/3 + 0)] (List.mem_singleton.mpr rfl)
    ("fitness", (1:ℚ)/3 + 0) (List.mem_singleton.mpr rfl)
  have hfloor : Int.floor (((1:ℚ)/3 + 0) * 100000) = 33333 := by
    rw [Int.floor_eq_iff]
    constructor <;> norm_num
  have hrhe : roundHalfEven (((1:ℚ)/3 + 0) * 100000) = 33333 := by
    unfold roundHalfEven
    rw [hfloor, if_pos (by norm_num)]
  unfold round5 at hv
  rw [hrhe] at hv
  norm_num at hv

/-- Claim C3 (amended): in nested mode, every value returned along a
successful merge — every value of the single-task result, and every value of a
multi-task per-task mapping whose merge succeeded — is rounded to 5 decimal
places; only the fallback fitness value of a task whose merge failed is
returned unrounded. -/
theorem C3_success_paths_rounded :
    (∀ (results : List (String × ℚ)) (r : SegTaskResult),
      ∀ kv ∈ finalizeTaskNested (some results) r, round5 kv.2 = kv.2) ∧
    (∀ results : List (String × ℚ),
      ∀ kv ∈ finalizeSingleNested results, round5 kv.2 = kv.2) := by
  constructor
  · intro results r kv hkv
    rcases List.mem_map.mp hkv with ⟨ab, _, rfl⟩
    exact round5_idem ab.2
  · intro results kv hkv
    rcases List.mem_map.mp hkv with ⟨ab, _, rfl⟩
    exact round5_idem ab.2

/-- Witness for `C3_success_paths_rounded` at a concrete merged mapping. -/
theorem C3_success_paths_rounded_witness :
    (("fitness", round5 ((1:ℚ)/2)) ∈
      finalizeTaskNested (some [("fitness", (1:ℚ)/2)]) ⟨⟨0⟩, ⟨0⟩, ⟨0⟩, ⟨0⟩⟩) ∧
    round5 (round5 ((1:ℚ)/2)) = round5 ((1:ℚ)/2) :=
  ⟨List.mem_singleton.mpr rfl,
   C3_success_paths_rounded.1 [("fitness", (1:ℚ)/2)] ⟨⟨0⟩, ⟨0⟩, ⟨0⟩, ⟨0⟩⟩
     ("fitness", round5 ((1:ℚ)/2)) (List.mem_singleton.mpr rfl)⟩

/-- Claim C4 counterexample: the default post-processing hook does not raise —
invoked on the raw prediction `42` it returns the prediction unchanged. -/
theorem C4_postprocess_returns_cex : postprocess (42 : ℕ) = Except.ok 42 := rfl

/-- Claim C4 (amended): the dataloader-construction and dataset-build hooks
raise `NotImplementedError` whenever invoked without a task-plugin override;
the default post-processing hook instead never raises — it returns any raw
prediction unchanged. -/
theorem C4_required_hooks (δ : Type) (dataset_path : String) (batch_size : ℕ)
    (img_path : String) :
    get_dataloader δ dataset_path batch_size
      = Except.error (HookErr.notImplemented
          "get_dataloader function not implemented for this validator") ∧
    build_dataset δ img_path
      = Except.error (HookErr.notImplemented
          "build_dataset function not implemented in validator") ∧
    ∀ (π : Type) (preds : π), postprocess preds = Except.ok preds :=
  ⟨rfl, rfl, fun _ _ => rfl⟩

/-- Claim C5: at finalization each of the four stage timers (preprocess,
inference, loss, postprocess) is divided by the dataset's image count and
converted to milliseconds; in multi-task mode the result is additionally
divided by the task count, in single-task mode it is not — the multi-task
entries are exactly the single-task entries further divided by the task
count. -/
theorem C5_speed_normalization (dt : ℚ × ℚ × ℚ × ℚ) (nImages nTasks : ℕ) :
    speedMulti dt nImages nTasks =
      [("preprocess", dt.1 / (nImages : ℚ) * 1000 / (nTasks : ℚ)),
       ("inference", dt.2.1 / (nImages : ℚ) * 1000 / (nTasks : ℚ)),
       ("loss", dt.2.2.1 / (nImages : ℚ) * 1000 / (nTasks : ℚ)),
       ("postprocess", dt.2.2.2 / (nImages : ℚ) * 1000 / (nTasks : ℚ))] ∧
    speedSingle dt nImages =
      [("preprocess", dt.1 / (nImages : ℚ) * 1000),
       ("inference", dt.2.1 / (nImages : ℚ) * 1000),
       ("loss", dt.2.2.1 / (nImages : ℚ) * 1000),
       ("postprocess", dt.2.2.2 / (nImages : ℚ) * 1000)] ∧
    speedMulti dt nImages nTasks
      = (speedSingle dt nImages).map (fun kv => (kv.1, kv.2 / (nTasks : ℚ))) :=
  ⟨rfl, rfl, rfl⟩

/-- Claim C6: in standalone mode the predictions JSON file is written iff JSON
export is enabled and at least one detection record was accumulated into
`jdict` over the whole run. -/
theorem C6_json_export_guard (save_json : Bool) (jdict : List JsonRecord) :
    writesPredictionsJson save_json jdict = true ↔
      save_json = true ∧ jdict ≠ [] := by
  cases save_json <;> cases jdict <;> simp [writesPredictionsJson]

/-! ## Segmentation-metric construction: characterization and claim C9 -/

lemma segMetricsAux_mem (nc_list : List ℕ) (p : String × ℕ) :
    ∀ (labels : List String) (k : ℕ),
      p ∈ segMetricsAux nc_list k labels ↔
        ∃ j, j < labels.length ∧ strContains (labels.getD j "") "seg" = true ∧
          p = (labels.getD j "", nc_list.getD (k + j) 0 + 1) := by
  intro labels
  induction labels with
  | nil =>
    intro k
    simp [segMetricsAux]
  | cons name rest ih =>
    intro k
    constructor
    · intro hp
      by_cases hseg : strContains name "seg" = true
      · rw [segMetricsAux, if_pos hseg] at hp
        rcases List.mem_cons.mp hp with hp | hp
        · exact ⟨0, Nat.succ_pos _, by simpa using hseg, by simpa using hp⟩
        · rcases (ih (k + 1)).mp hp with ⟨j, hj, hs, hpe⟩
          refine ⟨j + 1, Nat.succ_lt_succ hj, by simpa using hs, ?_⟩
          rw [List.getD_cons_succ]
          rw [show k + (j + 1) = (k + 1) + j from by omega]
          exact hpe
      · rw [segMetricsAux, if_neg hseg] at hp
        rcases (ih (k + 1)).mp hp with ⟨j, hj, hs, hpe⟩
        refine ⟨j + 1, Nat.succ_lt_succ hj, by simpa using hs, ?_⟩
        rw [List.getD_cons_succ]
        rw [show k + (j + 1) = (k + 1) + j from by omega]
        exact hpe
    · rintro ⟨j, hj, hs, hpe⟩
      cases j with
      | zero =>
        rw [List.getD_cons_zero] at hs hpe
        rw [segMetricsAux, if_pos hs]
        rw [Nat.add_zero] at hpe
        exact List.mem_cons.mpr (Or.inl hpe)
      | succ j =>
        rw [List.getD_cons_succ] at hs hpe
        have hmem : p ∈ segMetricsAux nc_list (k + 1) rest := by
          refine (ih (k + 1)).mpr ⟨j, Nat.lt_of_succ_lt_succ hj, hs, ?_⟩
          rw [show (k + 1) + j = k + (j + 1) from by omega]
          exact hpe
        by_cases hseg : strContains name "seg" = true
        · rw [segMetricsAux, if_pos hseg]
          exact List.mem_cons.mpr (Or.inr hmem)
        · rw [segMetricsAux, if_neg hseg]
          exact hmem

/-- Claim C9: in a multi-task run, the per-task running segmentation-metric
structures are built exactly for the configured task names that denote
segmentation, each constructed with class count equal to that task's declared
number of classes plus one (the reserved background class). -/
theorem C9_seg_metric_class_counts (labels_list : List String)
    (nc_list : List ℕ) (h : nc_list.length = labels_list.length) :
    ∀ p : String × ℕ,
      p ∈ seg_metrics labels_list nc_list ↔
        ∃ j, j < labels_list.length ∧ j < nc_list.length ∧
          strContains (labels_list.getD j "") "seg" = true ∧
          p = (labels_list.getD j "", nc_list.getD j 0 + 1) := by
  intro p
  rw [seg_metrics, segMetricsAux_mem]
  constructor
  · rintro ⟨j, hj, hs, hpe⟩
    exact ⟨j, hj, h ▸ hj, hs, by simpa using hpe⟩
  · rintro ⟨j, hj, _, hs, hpe⟩
    exact ⟨j, hj, hs, by simpa using hpe⟩

/-- Witness for `C9_seg_metric_class_counts`: a two-class segmentation task
gets a three-class running structure. -/
theorem C9_seg_metric_class_counts_witness :
    ([2] : List ℕ).length = (["drivable_seg"] : List String).length ∧
    ("drivable_seg", 3) ∈ seg_metrics ["drivable_seg"] [2] :=
  ⟨rfl,
   (C9_seg_metric_class_counts ["drivable_seg"] [2] rfl ("drivable_seg", 3)).mpr
     ⟨0, by decide, by decide, by decide, by decide⟩⟩

/-! ## Dispatch loop: length and alignment lemmas, claim C1 -/

lemma postDispatchAux_length {α β : Type} (labels : List String)
    (pd : α → β) (ps : α → ℕ → β) :
    ∀ (preds : List α) (k : ℕ), k + preds.length = labels.length →
      (postDispatchAux labels pd ps k preds).length
        = (labels.drop k).countP knownKind := by
  intro preds
  induction preds with
  | nil =>
    intro k hk
    rw [List.length_nil, Nat.add_zero] at hk
    rw [List.drop_eq_nil_of_le (le_of_eq hk.symm)]
    rfl
  | cons p rest ih =>
    intro k hk
    rw [List.length_cons] at hk
    have hklt : k < labels.length := by omega
    have hgetD : labels.getD k "" = labels[k] := by
      rw [List.getD_eq_getElem?_getD, List.getElem?_eq_getElem hklt]
      rfl
    have hrec := ih (k + 1) (by omega)
    rw [List.drop_eq_getElem_cons hklt, List.countP_cons]
    rw [postDispatchAux, hgetD]
    by_cases hdet : strContains labels[k] "det" = true
    · have hkk : knownKind labels[k] = true := by simp [knownKind, hdet]
      rw [if_pos hdet, hkk, List.length_cons, hrec]
      simp
    · by_cases hseg : strContains labels[k] "seg" = true
      · have hkk : knownKind labels[k] = true := by simp [knownKind, hseg]
        rw [if_neg hdet, if_pos hseg, hkk, List.length_cons, hrec]
        simp
      · have hkk : knownKind labels[k] = false := by simp [knownKind, hdet, hseg]
        rw [if_neg hdet, if_neg hseg, hkk, hrec]
        simp

lemma postDispatchAux_get_allKnown {α β : Type} (labels : List String)
    (pd : α → β) (ps : α → ℕ → β)
    (hall : ∀ n ∈ labels, knownKind n = true) :
    ∀ (preds : List α) (k i : ℕ) (a : α) (n : String),
      preds[i]? = some a → labels[k + i]? = some n →
      (postDispatchAux labels pd ps k preds)[i]?
        = some (if strContains n "det" = true then pd a else ps a (k + i)) := by
  intro preds
  induction preds with
  | nil =>
    intro k i a n ha _
    simp at ha
  | cons p rest ih =>
    intro k i a n ha hn
    have hkilt : k + i < labels.length := by
      rcases List.getElem?_eq_some_iff.mp hn with ⟨hlt, _⟩
      exact hlt
    have hklt : k < labels.length := by omega
    have hgetD : labels.getD k "" = labels[k] := by
      rw [List.getD_eq_getElem?_getD, List.getElem?_eq_getElem hklt]
      rfl
    have hkn : knownKind labels[k] = true :=
      hall labels[k] (List.getElem_mem hklt)
    rw [postDispatchAux, hgetD]
    cases i with
    | zero =>
      have hap : a = p := by
        rw [List.getElem?_cons_zero] at ha
        exact (Option.some.injEq _ _).mp ha.symm ▸ rfl
      have hnk : n = labels[k] := by
        rw [Nat.add_zero] at hn
        rw [List.getElem?_eq_getElem hklt] at hn
        exact ((Option.some.injEq _ _).mp hn).symm
      subst hap
      subst hnk
      by_cases hdet : strContains labels[k] "det" = true
      · rw [if_pos hdet, List.getElem?_cons_zero, if_pos hdet]
      · have hseg : strContains labels[k] "seg" = true := by
          rcases Bool.or_eq_true_iff.mp (by simpa [knownKind] using hkn) with hc | hc
          · exact absurd hc hdet
          · exact hc
        rw [if_neg hdet, if_pos hseg, List.getElem?_cons_zero, if_neg hdet,
          Nat.add_zero]
    | succ i =>
      have ha' : rest[i]? = some a := by
        rw [List.getElem?_cons_succ] at ha
        exact ha
      have hn' : labels[(k + 1) + i]? = some n := by
        rw [show (k + 1) + i = k + (i + 1) from by omega]
        exact hn
      have hrec := ih (k + 1) i a n ha' hn'
      have hidx : (k + 1) + i = k + (i + 1) := by omega
      by_cases hdet : strContains labels[k] "det" = true
      · rw [if_pos hdet, List.getElem?_cons_succ, hrec, hidx]
      · have hseg : strContains labels[k] "seg" = true := by
          rcases Bool.or_eq_true_iff.mp (by simpa [knownKind] using hkn) with hc | hc
          · exact absurd hc hdet
          · exact hc
        rw [if_neg hdet, if_pos hseg, List.getElem?_cons_succ, hrec, hidx]

/-- Claim C1 counterexample: with one configured task whose name denotes
neither detection nor segmentation, and a prediction list aligned to the task
list, the dispatch loop produces an empty post-processed list — the unknown
kind does not consume a slice, so the list does not have one entry per task. -/
theorem C1_unknown_kind_drops_slice_cex :
    ([7] : List ℕ).length = (["classify"] : List String).length ∧
    (preds_list_post ["classify"] (fun p : ℕ => p) (fun p i => p + i)
        [7]).length
      ≠ (["classify"] : List String).length := by
  exact ⟨rfl, by decide⟩

/-- Claim C1 (amended): per batch, the dispatch loop produces one
post-processed slice per configured task whose name denotes a detection or a
segmentation kind — an unknown kind appends nothing, shifting later slices.
Only when every configured task is of a known kind does the list have exactly
one entry per task, and then the i-th slice is the i-th task's post-processed
prediction, so metric updates stay aligned. -/
theorem C1_dispatch_slices {α β : Type} (labels_list : List String)
    (post_det : α → β) (post_seg : α → ℕ → β) (preds_list : List α)
    (h : preds_list.length = labels_list.length) :
    (preds_list_post labels_list post_det post_seg preds_list).length
      = labels_list.countP knownKind ∧
    ((∀ n ∈ labels_list, knownKind n = true) →
      (preds_list_post labels_list post_det post_seg preds_list).length
        = labels_list.length ∧
      ∀ (i : ℕ) (a : α) (n : String),
        preds_list[i]? = some a → labels_list[i]? = some n →
        (preds_list_post labels_list post_det post_seg preds_list)[i]?
          = some (if strContains n "det" = true then post_det a
                  else post_seg a i)) := by
  have hlen : (preds_list_post labels_list post_det post_seg preds_list).length
      = labels_list.countP knownKind := by
    rw [preds_list_post]
    have := postDispatchAux_length labels_list post_det post_seg preds_list 0
      (by omega)
    rw [List.drop_zero] at this
    exact this
  refine ⟨hlen, fun hall => ⟨?_, ?_⟩⟩
  · rw [hlen]
    exact List.countP_eq_length.mpr hall
  · intro i a n ha hn
    have := postDispatchAux_get_allKnown labels_list post_det post_seg hall
      preds_list 0 i a n ha (by simpa using hn)
    simpa [preds_list_post] using this

/-- Witness for `C1_dispatch_slices`: one detection task and one segmentation
task, with an aligned two-slice prediction list. -/
theorem C1_dispatch_slices_witness :
    ([10, 20] : List ℕ).length
      = (["object_det", "lane_seg"] : List String).length ∧
    (preds_list_post ["object_det", "lane_seg"] (fun p : ℕ => p * 2)
        (fun p i => p + i) [10, 20]).length
      = (["object_det", "lane_seg"] : List String).countP knownKind :=
  ⟨rfl,
   (C1_dispatch_slices ["object_det", "lane_seg"] (fun p : ℕ => p * 2)
     (fun p i => p + i) [10, 20] rfl).1⟩

/-! ## Detection post-processing: claim C8 -/

/-- Claim C8 counterexample: when the original images arrive as a tensor
rather than a list, the retained boxes are returned at the network's working
resolution — the remap (here the box transform `b ↦ b + 1`, which would have
produced box `4`) is skipped, so not every raw detection output has its
retained boxes remapped. -/
theorem C8_tensor_input_no_remap_cex :
    (postprocess_det
        (fun (_ : Unit) (_ : ℚ) (_ : ℚ) (_ : Bool) (_ : ℕ)
            (_ : Option (List ℕ)) => [[((3 : ℤ), ())]])
        (fun (_ : Unit) b (_ : Unit) => b + 1) (fun (_ : Unit) => ())
        ⟨1/1000, 7/10, false, 300, none⟩ () () ()
        (OrigInput.tensor ()) (BatchPaths.single "bus.jpg")).map
      (fun r => r.boxes) = [[((3 : ℤ), ())]] ∧
    ((3 : ℤ) + 1, ()) ≠ ((3 : ℤ), ()) := by
  exact ⟨rfl, by decide⟩

/-- Claim C8 (amended): the detection post-processor first applies
non-maximum suppression with exactly the configured confidence threshold, IoU
threshold, class-agnostic flag, maximum-detections cap and class allow-list,
and then — when the original images are supplied as a list, the non-tensor
case — remaps every retained box of every image from the network's working
resolution to that image's original shape; with tensor-shaped originals the
boxes are kept unremapped. -/
theorem C8_det_nms_then_remap {Raw Img Box Rest Names Shape : Type}
    [Inhabited Img]
    (non_max_suppression :
      Raw → ℚ → ℚ → Bool → ℕ → Option (List ℕ) → List (List (Box × Rest)))
    (scale_boxes : Shape → Box → Shape → Box) (shape_of : Img → Shape)
    (args : DetArgs) (names : Names) (preds : Raw) (img_hw : Shape)
    (l : List Img) (paths : BatchPaths) (i : ℕ) (group : List (Box × Rest))
    (hg : (non_max_suppression preds args.conf args.iou args.agnostic_nms
        args.max_det args.classes)[i]? = some group) :
    (postprocess_det non_max_suppression scale_boxes shape_of args names preds
        img_hw (OrigInput.images l) paths)[i]?
      = some ⟨l.getD i default, imgPathAt paths i, names,
          group.map (fun row =>
            (scale_boxes img_hw row.1 (shape_of (l.getD i default)), row.2))⟩ := by
  simp only [postprocess_det]
  rw [List.getElem?_map, List.getElem?_enum, hg]
  rfl

/-- Witness for `C8_det_nms_then_remap`: a one-image batch whose single
retained box `3` is remapped by the transform `b ↦ b + 1`. -/
theorem C8_det_nms_then_remap_witness :
    ((fun (_ : Unit) (_ : ℚ) (_ : ℚ) (_ : Bool) (_ : ℕ)
        (_ : Option (List ℕ)) => [[((3 : ℤ), ())]]) ()
      (DetArgs.conf ⟨1/1000, 7/10, false, 300, none⟩)
      (DetArgs.iou ⟨1/1000, 7/10, false, 300, none⟩)
      (DetArgs.agnostic_nms ⟨1/1000, 7/10, false, 300, none⟩)
      (DetArgs.max_det ⟨1/1000, 7/10, false, 300, none⟩)
      (DetArgs.classes ⟨1/1000, 7/10, false, 300, none⟩))[0]?
      = some [((3 : ℤ), ())] ∧
    (postprocess_det
        (fun (_ : Unit) (_ : ℚ) (_ : ℚ) (_ : Bool) (_ : ℕ)
            (_ : Option (List ℕ)) => [[((3 : ℤ), ())]])
        (fun (_ : Unit) b (_ : Unit) => b + 1) (fun (_ : Unit) => ())
        ⟨1/1000, 7/10, false, 300, none⟩ () () ()
        (OrigInput.images [()]) (BatchPaths.single "bus.jpg"))[0]?
      = some ⟨([()] : List Unit).getD 0 default,
          imgPathAt (BatchPaths.single "bus.jpg") 0, (),
          [((3 : ℤ), ())].map (fun row =>
            ((fun (_ : Unit) b (_ : Unit) => b + 1) () row.1
              ((fun (_ : Unit) => ()) (([()] : List Unit).getD 0 default)),
             row.2))⟩ :=
  ⟨rfl,
   C8_det_nms_then_remap
     (fun (_ : Unit) (_ : ℚ) (_ : ℚ) (_ : Bool) (_ : ℕ)
         (_ : Option (List ℕ)) => [[((3 : ℤ), ())]])
     (fun (_ : Unit) b (_ : Unit) => b + 1) (fun (_ : Unit) => ())
     ⟨1/1000, 7/10, false, 300, none⟩ () () ()
     [()] (BatchPaths.single "bus.jpg") 0 [((3 : ℤ), ())] rfl⟩

/-! ## Segmentation post-processing: arg-max lemmas, claims C7 and C10 -/

lemma maxValIdxAux_val_ge {γ : Type} [LinearOrder γ] :
    ∀ (rest : List γ) (i best : ℕ) (bv : γ),
      bv ≤ (maxValIdxAux i best bv rest).1 ∧
      ∀ a ∈ rest, a ≤ (maxValIdxAux i best bv rest).1 := by
  intro rest
  induction rest with
  | nil =>
    intro i best bv
    exact ⟨le_refl _, by simp⟩
  | cons a rest ih =>
    intro i best bv
    simp only [maxValIdxAux]
    by_cases hlt : bv < a
    · rw [if_pos hlt]
      rcases ih (i + 1) i a with ⟨h1, h2⟩
      refine ⟨le_of_lt (lt_of_lt_of_le hlt h1), ?_⟩
      intro b hb
      rcases List.mem_cons.mp hb with hb | hb
      · exact hb ▸ h1
      · exact h2 b hb
    · rw [if_neg hlt]
      rcases ih (i + 1) best bv with ⟨h1, h2⟩
      refine ⟨h1, ?_⟩
      intro b hb
      rcases List.mem_cons.mp hb with hb | hb
      · exact hb ▸ le_trans (le_of_not_lt hlt) h1
      · exact h2 b hb

lemma maxValIdxAux_val_at_idx {γ : Type} [LinearOrder γ] (full : List γ)
    (d : γ) :
    ∀ (rest : List γ) (i best : ℕ) (bv : γ),
      rest = full.drop i → best < full.length → full.getD best d = bv →
      (maxValIdxAux i best bv rest).2 < full.length ∧
      full.getD (maxValIdxAux i best bv rest).2 d
        = (maxValIdxAux i best bv rest).1 := by
  intro rest
  induction rest with
  | nil =>
    intro i best bv _ hb hv
    simp only [maxValIdxAux]
    exact ⟨hb, hv⟩
  | cons a rest ih =>
    intro i best bv hdrop hb hv
    have hilt : i < full.length := by
      by_contra hge
      rw [List.drop_eq_nil_of_le (le_of_not_lt hge)] at hdrop
      exact List.cons_ne_nil a rest hdrop
    rw [List.drop_eq_getElem_cons hilt] at hdrop
    injection hdrop with ha hrest
    simp only [maxValIdxAux]
    by_cases hlt : bv < a
    · rw [if_pos hlt]
      refine ih (i + 1) i a hrest hilt ?_
      rw [List.getD_eq_getElem?_getD, List.getElem?_eq_getElem hilt]
      exact ha.symm
    · rw [if_neg hlt]
      exact ih (i + 1) best bv hrest hb hv

lemma torchMaxDim_spec {γ : Type} [LinearOrder γ] (d : γ) (l : List γ)
    (hne : l ≠ []) :
    ∃ p : γ × ℕ, torchMaxDim l = some p ∧ p.2 < l.length ∧
      l.getD p.2 d = p.1 ∧ ∀ a ∈ l, a ≤ p.1 := by
  cases l with
  | nil => exact absurd rfl hne
  | cons v rest =>
    refine ⟨maxValIdxAux 1 0 v rest, rfl, ?_, ?_, ?_⟩
    · exact (maxValIdxAux_val_at_idx (v :: rest) d rest 1 0 v rfl
        (Nat.succ_pos _) rfl).1
    · exact (maxValIdxAux_val_at_idx (v :: rest) d rest 1 0 v rfl
        (Nat.succ_pos _) rfl).2
    · intro a ha
      rcases List.mem_cons.mp ha with ha | ha
      · exact ha ▸ (maxValIdxAux_val_ge rest 1 0 v).1
      · exact (maxValIdxAux_val_ge rest 1 0 v).2 a ha

lemma maxValIdxAux_map {γ δ : Type} [LinearOrder γ] [LinearOrder δ]
    (f : γ → δ) (hf : StrictMono f) :
    ∀ (rest : List γ) (i best : ℕ) (bv : γ),
      maxValIdxAux i best (f bv) (rest.map f)
        = (f (maxValIdxAux i best bv rest).1,
           (maxValIdxAux i best bv rest).2) := by
  intro rest
  induction rest with
  | nil =>
    intro i best bv
    simp [maxValIdxAux]
  | cons a rest ih =>
    intro i best bv
    simp only [List.map_cons, maxValIdxAux]
    by_cases hlt : bv < a
    · rw [if_pos (hf.lt_iff_lt.mpr hlt), if_pos hlt, ih]
    · rw [if_neg (fun hc => hlt (hf.lt_iff_lt.mp hc)), if_neg hlt, ih]

lemma torchMaxDim_map_strictMono {γ δ : Type} [LinearOrder γ] [LinearOrder δ]
    (f : γ → δ) (hf : StrictMono f) (l : List γ) :
    torchMaxDim (l.map f) = (torchMaxDim l).map (fun p => (f p.1, p.2)) := by
  cases l with
  | nil => rfl
  | cons v rest =>
    simp only [List.map_cons, torchMaxDim, maxValIdxAux_map f hf,
      Option.map_some']

lemma sigmoid_strictMono : StrictMono sigmoid := by
  intro x y h
  unfold sigmoid
  have hexp : Real.exp (-y) < Real.exp (-x) := Real.exp_lt_exp.mpr (by linarith)
  have hy : (0 : ℝ) < 1 + Real.exp (-y) := by positivity
  exact one_div_lt_one_div_of_lt hy (by linarith)

/-- Claim C7: the segmentation post-processor is exactly the composition
resize-to-original-resolution (bilinear, aligned corners disabled), then
element-wise logistic sigmoid, then arg-max over the class dimension; at every
pixel of the original-resolution grid the produced value is a class index
below the class count whose sigmoid-activated interpolated score is maximal
over all classes. -/
theorem C7_seg_postprocess_pipeline (numClasses inH inW origH origW : ℕ)
    (preds : ℕ → ℕ → ℕ → ℕ → ℝ) (hC : 0 < numClasses) :
    ∀ n y x : ℕ,
      postprocess_seg numClasses inH inW origH origW preds n y x
        = argmaxStage numClasses
            (sigmoidStage (interpolateStage inH inW origH origW preds)) n y x ∧
      postprocess_seg numClasses inH inW origH origW preds n y x
        < numClasses ∧
      ∀ c : ℕ, c < numClasses →
        sigmoid (interpolateBilinear inH inW (fun yy xx => preds n c yy xx)
            origH origW y x)
          ≤ sigmoid (interpolateBilinear inH inW
              (fun yy xx =>
                preds n (postprocess_seg numClasses inH inW origH origW preds
                  n y x) yy xx)
              origH origW y x) := by
  intro n y x
  have hLne : (List.range numClasses).map
      (fun c =>
        sigmoidStage (interpolateStage inH inW origH origW preds) n c y x)
      ≠ [] := by
    intro hnil
    rw [List.map_eq_nil_iff, List.range_eq_nil] at hnil
    omega
  obtain ⟨p, hp, hplt, hpval, hmax⟩ := torchMaxDim_spec (0 : ℝ) _ hLne
  have hres : postprocess_seg numClasses inH inW origH origW preds n y x
      = p.2 := by
    simp only [postprocess_seg, argmaxStage]
    rw [hp]
    rfl
  have hplt' : p.2 < numClasses := by
    simpa using hplt
  refine ⟨rfl, ?_, ?_⟩
  · rw [hres]
    exact hplt'
  · intro c hc
    have hmem :
        sigmoidStage (interpolateStage inH inW origH origW preds) n c y x
          ∈ (List.range numClasses).map
            (fun c =>
              sigmoidStage (interpolateStage inH inW origH origW preds) n c y x) :=
      List.mem_map.mpr ⟨c, List.mem_range.mpr hc, rfl⟩
    have h1 := hmax _ hmem
    have h2 : ((List.range numClasses).map
        (fun c =>
          sigmoidStage (interpolateStage inH inW origH origW preds) n c y x)).getD
        p.2 (0 : ℝ)
        = sigmoidStage (interpolateStage inH inW origH origW preds) n p.2 y x := by
      rw [List.getD_eq_getElem?_getD, List.getElem?_map,
        List.getElem?_range hplt']
      rfl
    have hval : sigmoidStage (interpolateStage inH inW origH origW preds)
        n p.2 y x = p.1 :=
      h2.symm.trans hpval
    rw [hres]
    show sigmoidStage (interpolateStage inH inW origH origW preds) n c y x
      ≤ sigmoidStage (interpolateStage inH inW origH origW preds) n p.2 y x
    rw [hval]
    exact h1

/-- Witness for `C7_seg_postprocess_pipeline` on a one-class constant tensor. -/
theorem C7_seg_postprocess_pipeline_witness :
    0 < 1 ∧ postprocess_seg 1 1 1 1 1 (fun _ _ _ _ => (0 : ℝ)) 0 0 0 < 1 :=
  ⟨Nat.one_pos,
   ((C7_seg_postprocess_pipeline 1 1 1 1 1 (fun _ _ _ _ => (0 : ℝ))
     Nat.one_pos) 0 0 0).2.1⟩

/-- Claim C10: removing the sigmoid step does not change the segmentation
post-processor's output — arg-max over the class dimension after the logistic
sigmoid equals arg-max over the interpolated raw logits, because the sigmoid
is strictly monotone; the implemented pipeline is equivalent to
interpolate-then-argmax. -/
theorem C10_sigmoid_removable (numClasses inH inW origH origW : ℕ)
    (preds : ℕ → ℕ → ℕ → ℕ → ℝ) :
    postprocess_seg numClasses inH inW origH origW preds
      = argmaxStage numClasses (interpolateStage inH inW origH origW preds) := by
  funext n y x
  simp only [postprocess_seg, argmaxStage, sigmoidStage]
  have hmap : (List.range numClasses).map
      (fun c => sigmoid (interpolateStage inH inW origH origW preds n c y x))
      = ((List.range numClasses).map
          (fun c => interpolateStage inH inW origH origW preds n c y x)).map
        sigmoid := by
    rw [List.map_map]
    rfl
  rw [hmap, torchMaxDim_map_strictMono sigmoid sigmoid_strictMono]
  cases torchMaxDim ((List.range numClasses).map
      (fun c => interpolateStage inH inW origH origW preds n c y x)) with
  | none => rfl
  | some p => rfl

end YoloSSR
